import Mathlib

/-!
Verification development for the audiobook TTS microservice (`src/tts-api`).

Python strings are modelled as `List Char`, filesystem paths as lists of path
components (`List (List Char)`), and floating-point waveforms as `List ℚ`
(exact arithmetic; the code's float32 behaviour is idealized, which the
spec's "within a small epsilon" phrasing already anticipates).

External effects (the espeak/ffmpeg subprocesses, `numpy`, `pathlib.mkdir`,
`uuid.uuid4`, attribute lookup on engine objects) are modelled explicitly:
subprocess outcomes and the random UUID draws become parameters of the
embedded functions, and Python attribute access becomes lookup in an
explicit attribute list so that `AttributeError` paths are representable.
-/

/-- Abbreviation turning a Lean string literal into the `List Char` that
models the corresponding Python `str`. -/
def toCL (s : String) : List Char := s.toList

/-! ## Path resolver: `FileManager._sanitize_filename` / `get_chapter_path`
(`src/tts-api/file_manager.py` lines 20-33 and 173-190) -/

/-- Characters replaced by the first substitution
`re.sub(r'[<>:"/\\|?*]', '_', filename)` in `_sanitize_filename`. -/
def bad_char (c : Char) : Bool :=
  c = '<' || c = '>' || c = ':' || c = '\"' || c = '/' || c = '\\' || c = '|' || c = '?' || c = '*'

/-- Python's regex class `\w` (Unicode mode).  Exact on ASCII
(alphanumerics and underscore); characters above ASCII are treated as word
characters, an over-approximation of Python's Unicode table that is
irrelevant to every claim proved below (no non-ASCII character is a path
separator, a dot or an underscore). -/
def word_char (c : Char) : Bool := c.isAlphanum || c = '_' || 127 < c.toNat

/-- Characters kept by the second substitution `re.sub(r'[^\w\-_.]', '_', ...)`. -/
def keep_char (c : Char) : Bool := word_char c || c = '-' || c = '_' || c = '.'

/-- First pass of `_sanitize_filename`: `re.sub(r'[<>:"/\\|?*]', '_', filename)`. -/
def replace_bad (l : List Char) : List Char :=
  l.map fun c => if bad_char c then '_' else c

/-- Second pass of `_sanitize_filename`: `re.sub(r'[^\w\-_.]', '_', sanitized)`. -/
def replace_nonword (l : List Char) : List Char :=
  l.map fun c => if keep_char c then c else '_'

/-- Third pass of `_sanitize_filename`: `re.sub(r'_+', '_', sanitized)`,
collapsing every run of underscores to a single underscore. -/
def collapse_underscores : List Char → List Char
  | [] => []
  | [c] => [c]
  | c :: d :: rest =>
    if c = '_' ∧ d = '_' then collapse_underscores (d :: rest)
    else c :: collapse_underscores (d :: rest)

/-- Characters stripped from both ends by `sanitized.strip('_.')`. -/
def strip_char (c : Char) : Bool := c = '_' || c = '.'

/-- Python `s.strip('_.')`: drop leading and trailing underscores and dots. -/
def strip_underscores_dots (l : List Char) : List Char :=
  ((l.dropWhile strip_char).reverse.dropWhile strip_char).reverse

/-- The deterministic part of `_sanitize_filename` (everything except the
empty-input / empty-result UUID fallback and the final truncation). -/
def sanitize_core (l : List Char) : List Char :=
  strip_underscores_dots (collapse_underscores (replace_nonword (replace_bad l)))

/-- Model of `FileManager._sanitize_filename`.  The `uuid` argument models
the value `str(uuid.uuid4())` that the code draws when the input, or the
sanitized result, is empty; it is a fresh random string on every call, so
distinct invocations are modelled by passing distinct `uuid` values. -/
def sanitize_filename (uuid : List Char) (l : List Char) : List Char :=
  if l = [] then uuid
  else if sanitize_core l = [] then uuid
  else if 100 < (sanitize_core l).length then (sanitize_core l).take 100
  else sanitize_core l

/-- The chapter file name `f"chapter-{safe_chapter}.mp3"` built by
`get_chapter_path`. -/
def chapter_file_name (uuid chapter : List Char) : List Char :=
  toCL "chapter-" ++ sanitize_filename uuid chapter ++ toCL ".mp3"

/-- Model of `FileManager.get_chapter_path`: the returned path
`audio_root / safe_book / f"chapter-{safe_chapter}.mp3"` as a list of path
components appended to the root's components.  `uuid_book` and
`uuid_chapter` model the two independent `uuid.uuid4()` draws the two
`_sanitize_filename` calls may make. -/
def get_chapter_path (root : List (List Char)) (uuid_book uuid_chapter book chapter : List Char) :
    List (List Char) :=
  root ++ [sanitize_filename uuid_book book, chapter_file_name uuid_chapter chapter]

/-- A path component that can never cause an escape from its parent
directory: non-empty, contains no separator, and is neither `.` nor `..`. -/
def good_component (c : List Char) : Prop :=
  c ≠ [] ∧ (∀ ch ∈ c, ch ≠ '/' ∧ ch ≠ '\\') ∧ c ≠ ['.'] ∧ c ≠ ['.', '.']

instance (c : List Char) : Decidable (good_component c) := by
  unfold good_component; infer_instance

/-- One step of POSIX-style path normalization: empty and `.` components
are skipped, `..` pops the previous component, anything else is appended. -/
def norm_step (acc : List (List Char)) (c : List Char) : List (List Char) :=
  if c = [] ∨ c = ['.'] then acc
  else if c = ['.', '.'] then acc.dropLast
  else acc ++ [c]

/-- Normalize a component list, resolving `.` and `..` (the canonical form
used to decide whether a resolved path escapes the audio root). -/
def normalize_path (l : List (List Char)) : List (List Char) := l.foldl norm_step []

/-- Model of `pathlib.Path.mkdir(exist_ok=...)` over a filesystem modelled
as the list of existing directories: with `exist_ok` an existing directory
is returned unchanged, without it the call raises `FileExistsError`. -/
def mkdir_model (exist_ok : Bool) (fs : List (List (List Char))) (p : List (List Char)) :
    Except Unit (List (List (List Char))) :=
  if p ∈ fs then (if exist_ok then Except.ok fs else Except.error ()) else Except.ok (p :: fs)

/-- `FileManager.get_chapter_path` with its side effect: it calls
`book_dir.mkdir(parents=True, exist_ok=True)` before returning the path. -/
def get_chapter_path_fs (fs : List (List (List Char))) (root : List (List Char))
    (uuid_book uuid_chapter book chapter : List Char) :
    Except Unit (List (List Char) × List (List (List Char))) :=
  match mkdir_model true fs (root ++ [sanitize_filename uuid_book book]) with
  | Except.error e => Except.error e
  | Except.ok fsNew => Except.ok (get_chapter_path root uuid_book uuid_chapter book chapter, fsNew)

/-! ## Text segmenter: `EmotiVoiceEngine._split_text`
(`src/tts-api/emotivoice_engine.py` lines 331-357) -/

/-- Python's regex class `\s` restricted to ASCII whitespace (space, tab,
newline, carriage return, vertical tab, form feed).  Non-ASCII Unicode
whitespace is not modelled; no claim below depends on it. -/
def is_py_space (c : Char) : Bool :=
  c = ' ' || c = '\t' || c = '\n' || c = '\r' || c.toNat = 11 || c.toNat = 12

/-- The sentence-terminating punctuation class `[.!?。！？]` of the split
regex in `_split_text`. -/
def sentence_punct (c : Char) : Bool :=
  c = '.' || c = '!' || c = '?' || c = '。' || c = '！' || c = '？'

/-- Whether the (reversed) accumulator of the sentence scanner ends in
sentence punctuation — the lookbehind `(?<=[.!?。！？])` of the split regex. -/
def head_is_punct : List Char → Bool
  | [] => false
  | c :: _ => sentence_punct c

/-- Scanner for `re.split(r'(?<=[.!?。！？])\s+', text)`: `cur` holds the
current sentence reversed; a whitespace character preceded by sentence
punctuation ends the sentence and the whole whitespace run is consumed.
The fuel argument (instantiated with the text length, which every step
strictly exceeds the remaining text's length by at least as much as
before) only makes the recursion structural; the zero-fuel case is
unreachable. -/
def sent_go : ℕ → List Char → List Char → List (List Char)
  | _, cur, [] => [cur.reverse]
  | fuel + 1, cur, c :: rest =>
    if is_py_space c && head_is_punct cur then
      cur.reverse :: sent_go fuel [] (rest.dropWhile is_py_space)
    else
      sent_go fuel (c :: cur) rest
  | 0, cur, _ => [cur.reverse]

/-- Model of `re.split(r'(?<=[.!?。！？])\s+', text)` in `_split_text`. -/
def sent_split (l : List Char) : List (List Char) := sent_go l.length [] l

/-- Python `s.strip()`: drop leading and trailing whitespace. -/
def strip_ws (l : List Char) : List Char :=
  ((l.dropWhile is_py_space).reverse.dropWhile is_py_space).reverse

/-- The greedy sentence-packing loop of `_split_text`: emit the current
chunk (stripped) when adding the next sentence would exceed `L`, otherwise
join the sentence onto the chunk with a single space; finally append the
last chunk if its stripped form is non-empty. -/
def pack_go (L : ℕ) : List Char → List (List Char) → List (List Char) → List (List Char)
  | current, chunks, [] =>
      if strip_ws current = [] then chunks else chunks ++ [strip_ws current]
  | current, chunks, s :: rest =>
      if L < current.length + s.length ∧ current ≠ [] then
        pack_go L s (chunks ++ [strip_ws current]) rest
      else
        pack_go L (if current = [] then s else current ++ ' ' :: s) chunks rest

/-- Fuelled fixed-width slicer for the fallback loop
`for i in range(0, len(text), max_text_length)`.  The fuel (the text
length) is enough for every positive `L`; Python raises `ValueError` for
`L = 0`, a case no claim exercises. -/
def slice_go : ℕ → ℕ → List Char → List (List Char)
  | _, _, [] => []
  | 0, _, _ => []
  | fuel + 1, L, l => l.take L :: slice_go fuel L (l.drop L)

/-- The fixed-width fallback slicing of `_split_text`. -/
def slice_text (L : ℕ) (l : List Char) : List (List Char) := slice_go l.length L l

/-- Model of `EmotiVoiceEngine._split_text` with the length bound
`self.max_text_length` (set to 500 in `__init__`) as parameter `L`. -/
def split_text (L : ℕ) (text : List Char) : List (List Char) :=
  if pack_go L [] [] (sent_split text) = [] then slice_text L text
  else pack_go L [] [] (sent_split text)

/-- Concrete input for the segment-length analysis: a 250-character
sentence, one space, and a second 250-character sentence (501 characters
in total). -/
def cex_text : List Char :=
  List.replicate 249 'a' ++ '.' :: ' ' :: (List.replicate 249 'b' ++ ['.'])

/-! ## Audio normalization: `_normalize_audio`
(`src/tts-api/emotivoice_engine.py` 359-369, `src/tts-api/tts_engine.py` 189-199;
the two functions are textually identical) -/

/-- `np.mean(audio)` over the rationals. -/
def np_mean (l : List ℚ) : ℚ := l.sum / l.length

/-- `np.max(np.abs(audio))` over the rationals (0 for the empty waveform,
which `np.max` would reject; the claims only concern non-empty input). -/
def np_max_abs (l : List ℚ) : ℚ := (l.map fun x => |x|).foldr max 0

/-- Model of `_normalize_audio`: subtract the mean, then if the maximum
absolute sample is positive scale by `0.9 / max_val`. -/
def normalize_audio (l : List ℚ) : List ℚ :=
  if 0 < np_max_abs (l.map fun x => x - np_mean l) then
    (l.map fun x => x - np_mean l).map fun x => x * (9 / 10 / np_max_abs (l.map fun y => y - np_mean l))
  else l.map fun x => x - np_mean l

/-! ## Per-chunk failure recovery: `_generate_chunk`
(`src/tts-api/tts_engine.py` 120-136, `src/tts-api/emotivoice_engine.py` 217-231) -/

/-- Model of `_generate_chunk`: the backend call (`bark.generate_audio`
resp. the EmotiVoice/fallback generators, raising on failure) is the
oracle `synth`; on any exception the function returns
`np.zeros(int(2 * self.sample_rate))`, a 2-second silence buffer. -/
def generate_chunk (sample_rate : ℕ) (synth : List Char → Except Unit (List ℚ))
    (text : List Char) : List ℚ :=
  match synth text with
  | Except.ok a => a
  | Except.error _ => List.replicate (2 * sample_rate) 0

/-- The per-chunk outputs collected by the loop in `generate_speech`: one
waveform per chunk, in order, with no chunk skipped or aborting the job. -/
def chunk_outputs (sample_rate : ℕ) (synth : List Char → Except Unit (List ℚ))
    (chunks : List (List Char)) : List (List ℚ) :=
  chunks.map (generate_chunk sample_rate synth)

/-- A synthesis oracle that fails on every chunk. -/
def synth_fail : List Char → Except Unit (List ℚ) := fun _ => Except.error ()

/-! ## Transcoding fallback: `AudioProcessor.process_audio`
(`src/tts-api/simple_audio_utils.py` 13-66) -/

/-- Outcome of the `subprocess.run(['ffmpeg', ...], timeout=60)` call:
the process completed with a return code, the 60-second bound expired
(`subprocess.TimeoutExpired`), or the invocation itself raised (e.g.
`FileNotFoundError` when ffmpeg is not installed). -/
inductive FfmpegOutcome where
  | completed (returncode : Int)
  | timedOut
  | notAvailable
deriving DecidableEq

/-- Environment for one `process_audio` call: what the ffmpeg subprocess
does, and whether the fallback `shutil.copy2` succeeds. -/
structure TranscodeEnv where
  ffmpeg : FfmpegOutcome
  copy_ok : Bool

/-- The `timeout=60` argument of the ffmpeg invocation in `process_audio`. -/
def ffmpeg_timeout_seconds : ℕ := 60

/-- Model of `AudioProcessor._simple_copy`: copy the raw file to the
destination and return the destination path, re-raising if the copy fails. -/
def simple_copy (env : TranscodeEnv) (output_path : List Char) : Except Unit (List Char) :=
  if env.copy_ok then Except.ok output_path else Except.error ()

/-- Model of `AudioProcessor.process_audio`: return the destination on
ffmpeg success (returncode 0); on a non-zero return code, a timeout, or
any raised exception, fall back to `_simple_copy`. -/
def process_audio (env : TranscodeEnv) (input_path output_path : List Char) :
    Except Unit (List Char) :=
  match env.ffmpeg with
  | FfmpegOutcome.completed rc =>
      if rc = 0 then Except.ok output_path else simple_copy env output_path
  | FfmpegOutcome.timedOut => simple_copy env output_path
  | FfmpegOutcome.notAvailable => simple_copy env output_path

/-! ## Engine attribute model, health check and request handler
(`src/tts-api/app.py` 106-140 and 143-233,
`src/tts-api/simple_tts_engine.py` 13-14) -/

/-- Python attribute lookup on an object whose boolean attributes are the
listed pairs; `none` models an `AttributeError`. -/
def getattr_bool (attrs : List (List Char × Bool)) (name : List Char) : Option Bool :=
  (attrs.find? fun p => p.fst == name).map fun p => p.snd

/-- The boolean attributes a `SimpleTTSEngine` instance carries:
`__init__` sets only `self.initialized` (there is no `is_loaded`). -/
def simple_tts_engine_attrs (initialized : Bool) : List (List Char × Bool) :=
  [(toCL "initialized", initialized)]

/-- The fields of `HealthResponse` that `health_check` fills in. -/
structure HealthReport where
  status : List Char
  model_loaded : Bool
  audio_path : List Char
  disk_space_gb : ℚ
  memory_usage_mb : ℚ
  gpu_available : Bool

/-- Model of the `/health` handler `health_check`: it reads
`tts_engine.is_loaded`; if that attribute lookup raises, the surrounding
`except` turns the error into `HTTPException(status_code=500)`. -/
def health_check (engine_attrs : List (List Char × Bool)) (audio_path : List Char)
    (disk mem : ℚ) (gpu : Bool) : Except ℕ HealthReport :=
  match getattr_bool engine_attrs (toCL "is_loaded") with
  | some b => Except.ok ⟨toCL "healthy", b, audio_path, disk, mem, gpu⟩
  | none => Except.error 500

/-- The fields of a `/tts` request (`TTSRequest`). -/
structure TTSRequestModel where
  text : List Char
  book : List Char
  chapter : List Char
  speaker : List Char
  emotion : List Char
  speed : ℚ

/-- The fields of a `/tts` response (`TTSResponse`). -/
structure TTSResponseModel where
  success : Bool
  message : List Char
  audio_path : Option (List Char)
  duration : Option ℚ
  file_size : Option ℕ
  processing_time : Option ℚ
deriving DecidableEq

/-- Environment for one `generate_tts` call: the engine's `is_loaded`
attribute lookup, whether `generate_speech` raises, the transcoding
result, and the probed file size, duration and elapsed time. -/
structure TTSPipelineEnv where
  engine_attrs : List (List Char × Bool)
  synth_raises : Bool
  transcode : Except Unit (List Char)
  stat_size : ℕ
  probed_duration : ℚ
  elapsed : ℚ

/-- The relative path `f"{request.book}/chapter-{request.chapter}.mp3"`
placed in the response (line 202 of `app.py`, unsanitized). -/
def relative_audio_path (req : TTSRequestModel) : List Char :=
  req.book ++ toCL "/chapter-" ++ req.chapter ++ toCL ".mp3"

/-- Model of the `/tts` handler `generate_tts`.  The handler runs the
whole pipeline synchronously: readiness check, synthesis into a temp
file, transcoding to the final path, probing size and duration, and only
then returns.  An `AttributeError` on `is_loaded` or a raising pipeline
stage is caught by the outer `except` and becomes a `success=False`
response; an explicit `HTTPException(503)` propagates. -/
def generate_tts (env : TTSPipelineEnv) (req : TTSRequestModel) : Except ℕ TTSResponseModel :=
  match getattr_bool env.engine_attrs (toCL "is_loaded") with
  | none =>
      Except.ok ⟨false, toCL "TTS generation failed", none, none, none, some env.elapsed⟩
  | some false => Except.error 503
  | some true =>
      if env.synth_raises then
        Except.ok ⟨false, toCL "TTS generation failed", none, none, none, some env.elapsed⟩
      else
        match env.transcode with
        | Except.error _ =>
            Except.ok ⟨false, toCL "TTS generation failed", none, none, none, some env.elapsed⟩
        | Except.ok _ =>
            Except.ok ⟨true, toCL "TTS generation completed successfully",
              some (relative_audio_path req), some env.probed_duration,
              some env.stat_size, some env.elapsed⟩

/-- A pipeline environment in which the engine reports loaded and every
stage succeeds. -/
def env_ok : TTSPipelineEnv :=
  ⟨[(toCL "is_loaded", true)], false, Except.ok (toCL "/audio/b1/chapter-1.mp3"), 1000, 5, 2⟩

/-- A concrete well-formed request. -/
def req_ex : TTSRequestModel :=
  ⟨toCL "Hello world.", toCL "b1", toCL "1", toCL "9017", toCL "happy", 1⟩

/-! ## Text truncation: `SimpleTTSEngine._clean_text`
(`src/tts-api/simple_tts_engine.py` 71-80) and the `TTSRequest` text bound
(`src/tts-api/app.py` 45-51) -/

/-- Python `text.split()` (whitespace split, empties dropped); the first
argument accumulates the current word reversed. -/
def py_words : List Char → List Char → List (List Char)
  | acc, [] => if acc = [] then [] else [acc.reverse]
  | acc, c :: rest =>
    if is_py_space c then
      if acc = [] then py_words [] rest else acc.reverse :: py_words [] rest
    else py_words (c :: acc) rest

/-- `' '.join(text.split())` — the whitespace normalization in `_clean_text`. -/
def normalize_ws (l : List Char) : List Char := List.intercalate [' '] (py_words [] l)

/-- Model of `SimpleTTSEngine._clean_text`: normalize whitespace, then if
the result is longer than 500 characters keep the first 500 and append
`"..."`. -/
def clean_text (l : List Char) : List Char :=
  if 500 < (normalize_ws l).length then (normalize_ws l).take 500 ++ toCL "..."
  else normalize_ws l

/-- The `TTSRequest.text` field constraint
`Field(..., min_length=1, max_length=50000)`. -/
def tts_request_text_ok (t : List Char) : Prop := 1 ≤ t.length ∧ t.length ≤ 50000

/-! ## Helper lemmas -/

theorem dropWhile_head_false (p : Char → Bool) :
    ∀ (l : List Char) {c : Char} {t : List Char}, l.dropWhile p = c :: t → p c = false := by
  intro l
  induction l with
  | nil => intro c t h; simp [List.dropWhile] at h
  | cons x xs ih =>
    intro c t h
    rw [List.dropWhile_cons] at h
    split at h
    · exact ih h
    · rename_i hx
      injection h with h1 _
      subst h1
      simpa using hx

theorem dropWhile_append_last (p : Char → Bool) (c : Char) (hc : p c = false) :
    ∀ (l : List Char), (l ++ [c]).dropWhile p = l.dropWhile p ++ [c] := by
  intro l
  induction l with
  | nil => simp [List.dropWhile_cons, hc]
  | cons x xs ih =>
    by_cases hx : p x
    · simp only [List.cons_append, List.dropWhile_cons, hx, if_true, ih]
    · simp only [List.cons_append, List.dropWhile_cons, hx, if_false]
      simp [hx]

theorem strip_underscores_dots_cases (l : List Char) :
    strip_underscores_dots l = [] ∨
      ∃ c t, strip_underscores_dots l = c :: t ∧ strip_char c = false := by
  unfold strip_underscores_dots
  cases hm : l.dropWhile strip_char with
  | nil => left; simp
  | cons c t =>
    right
    have hc : strip_char c = false := dropWhile_head_false strip_char l hm
    rw [List.reverse_cons, dropWhile_append_last strip_char c hc, List.reverse_append]
    exact ⟨c, (t.reverse.dropWhile strip_char).reverse, by simp, hc⟩

theorem mem_strip_underscores_dots {l : List Char} {ch : Char}
    (h : ch ∈ strip_underscores_dots l) : ch ∈ l := by
  unfold strip_underscores_dots at h
  rw [List.mem_reverse] at h
  have h1 := List.dropWhile_subset _ h
  rw [List.mem_reverse] at h1
  exact List.dropWhile_subset _ h1

theorem mem_collapse_underscores :
    ∀ (l : List Char) {ch : Char}, ch ∈ collapse_underscores l → ch ∈ l := by
  intro l
  induction l with
  | nil => intro ch h; simpa [collapse_underscores] using h
  | cons c rest ih =>
    cases rest with
    | nil => intro ch h; simpa [collapse_underscores] using h
    | cons d rest2 =>
      intro ch h
      simp only [collapse_underscores] at h
      split at h
      · exact List.mem_cons_of_mem c (ih h)
      · rcases List.mem_cons.mp h with rfl | h2
        · exact List.mem_cons_self _ _
        · exact List.mem_cons_of_mem c (ih h2)

theorem replace_bad_no_sep {l : List Char} {ch : Char} (h : ch ∈ replace_bad l) :
    ch ≠ '/' ∧ ch ≠ '\\' := by
  unfold replace_bad at h
  rcases List.mem_map.mp h with ⟨c, _, rfl⟩
  by_cases hb : bad_char c
  · rw [if_pos hb]; exact ⟨by decide, by decide⟩
  · rw [if_neg hb]
    constructor
    · rintro rfl; exact hb (by decide)
    · rintro rfl; exact hb (by decide)

theorem replace_nonword_no_sep {l : List Char} (hl : ∀ x ∈ l, x ≠ '/' ∧ x ≠ '\\')
    {ch : Char} (h : ch ∈ replace_nonword l) : ch ≠ '/' ∧ ch ≠ '\\' := by
  unfold replace_nonword at h
  rcases List.mem_map.mp h with ⟨c, hc, rfl⟩
  by_cases hk : keep_char c
  · rw [if_pos hk]; exact hl c hc
  · rw [if_neg hk]; exact ⟨by decide, by decide⟩

theorem sanitize_core_no_sep {l : List Char} {ch : Char} (h : ch ∈ sanitize_core l) :
    ch ≠ '/' ∧ ch ≠ '\\' := by
  unfold sanitize_core at h
  have h1 := mem_strip_underscores_dots h
  have h2 := mem_collapse_underscores _ h1
  exact replace_nonword_no_sep (fun x hx => replace_bad_no_sep hx) h2

theorem sanitize_core_head_not_strip {l : List Char} (h : sanitize_core l ≠ []) :
    ∃ c t, sanitize_core l = c :: t ∧ strip_char c = false := by
  rcases strip_underscores_dots_cases
      (collapse_underscores (replace_nonword (replace_bad l))) with h0 | ⟨c, t, hct, hc⟩
  · exact absurd h0 h
  · exact ⟨c, t, hct, hc⟩

theorem good_component_of_parts {m : List Char}
    (hmem : ∀ ch ∈ m, ch ≠ '/' ∧ ch ≠ '\\')
    (hhead : ∃ c t, m = c :: t ∧ strip_char c = false) :
    good_component m := by
  obtain ⟨c, t, rfl, hc⟩ := hhead
  refine ⟨by simp, hmem, ?_, ?_⟩
  · intro h
    injection h with h1 _
    subst h1
    simp [strip_char] at hc
  · intro h
    injection h with h1 _
    subst h1
    simp [strip_char] at hc

theorem good_component_sanitize_filename (uuid l : List Char) (hu : good_component uuid) :
    good_component (sanitize_filename uuid l) := by
  unfold sanitize_filename
  split_ifs with h1 h2 h3
  · exact hu
  · exact hu
  · obtain ⟨c, t, hct, hc⟩ := sanitize_core_head_not_strip h2
    refine good_component_of_parts ?_ ?_
    · intro ch hch
      exact sanitize_core_no_sep (List.take_subset 100 _ hch)
    · rw [hct, show (100 : ℕ) = 99 + 1 from rfl, List.take_succ_cons]
      exact ⟨c, t.take 99, rfl, hc⟩
  · obtain ⟨c, t, hct, hc⟩ := sanitize_core_head_not_strip h2
    exact good_component_of_parts (fun ch hch => sanitize_core_no_sep hch) ⟨c, t, hct, hc⟩

theorem good_component_chapter_file_name (uuid chapter : List Char) (hu : good_component uuid) :
    good_component (chapter_file_name uuid chapter) := by
  have hs := good_component_sanitize_filename uuid chapter hu
  unfold chapter_file_name
  refine ⟨by simp [toCL], ?_, ?_, ?_⟩
  · intro ch hch
    rw [List.mem_append] at hch
    rcases hch with hch | hch
    · rw [List.mem_append] at hch
      rcases hch with hch | hch
      · fin_cases hch <;> exact ⟨by decide, by decide⟩
      · exact hs.2.1 ch hch
    · fin_cases hch <;> exact ⟨by decide, by decide⟩
  · intro h
    have h2 : ('c' :: (toCL "hapter-" ++ (sanitize_filename uuid chapter ++ toCL ".mp3"))) = ['.'] := h
    injection h2 with h3 _
    exact absurd h3 (by decide)
  · intro h
    have h2 : ('c' :: (toCL "hapter-" ++ (sanitize_filename uuid chapter ++ toCL ".mp3"))) = ['.', '.'] := h
    injection h2 with h3 _
    exact absurd h3 (by decide)

theorem norm_step_good (acc : List (List Char)) {c : List Char} (hc : good_component c) :
    norm_step acc c = acc ++ [c] := by
  unfold norm_step
  have h1 : ¬(c = [] ∨ c = ['.']) := by
    rintro (h | h)
    · exact hc.1 h
    · exact hc.2.2.1 h
  rw [if_neg h1, if_neg hc.2.2.2]

/-! ## C1: path confinement of the resolver -/

/-- C1.  For every (book, chapter) pair of input strings — including pairs
containing traversal sequences such as `../../etc` or embedded separators —
`FileManager.get_chapter_path` returns a path that stays confined to the
configured audio root: after POSIX normalization the resolved path is
exactly the normalized root extended by the sanitized book directory and
the chapter file name, hence the root is a strict prefix of it and the
result is never outside the root.  The `uuid` hypotheses say only that the
random `uuid.uuid4()` strings the sanitizer may substitute are themselves
well-formed single path components, which holds for every UUID. -/
theorem get_chapter_path_confined (root : List (List Char)) (ub uc book chapter : List Char)
    (hub : good_component ub) (huc : good_component uc) :
    normalize_path (get_chapter_path root ub uc book chapter)
      = normalize_path root ++ [sanitize_filename ub book, chapter_file_name uc chapter]
    ∧ normalize_path root <+: normalize_path (get_chapter_path root ub uc book chapter)
    ∧ normalize_path (get_chapter_path root ub uc book chapter) ≠ normalize_path root := by
  have h1 := good_component_sanitize_filename ub book hub
  have h2 := good_component_chapter_file_name uc chapter huc
  have key : normalize_path (get_chapter_path root ub uc book chapter)
      = normalize_path root ++ [sanitize_filename ub book, chapter_file_name uc chapter] := by
    unfold get_chapter_path normalize_path
    rw [List.foldl_append]
    simp only [List.foldl_cons, List.foldl_nil]
    rw [norm_step_good _ h1, norm_step_good _ h2, List.append_assoc]
    rfl
  refine ⟨key, ?_, ?_⟩
  · rw [key]
    exact ⟨[sanitize_filename ub book, chapter_file_name uc chapter], rfl⟩
  · rw [key]
    intro h
    have hlen := congrArg List.length h
    simp at hlen

/-- Witness for C1 at the spec's own adversarial example
`book = "../../etc"`, `chapter = "passwd"`. -/
theorem get_chapter_path_confined_witness :
    normalize_path [toCL "audio"]
      <+: normalize_path
        (get_chapter_path [toCL "audio"] (toCL "u0") (toCL "u1") (toCL "../../etc") (toCL "passwd")) :=
  (get_chapter_path_confined [toCL "audio"] (toCL "u0") (toCL "u1") (toCL "../../etc")
    (toCL "passwd") (by decide) (by decide)).2.1

/-! ## C5: idempotence of the resolver -/

/-- Counterexample for C5 as stated.  The claim quantifies over every
(book, chapter) pair, but for a book name such as "." the sanitizer
strips everything, hits the `str(uuid.uuid4())` fallback, and therefore
draws a fresh random name on every call: two invocations (modelled by the
two distinct UUID draws "aaaa" and "bbbb") return different paths. -/
theorem get_chapter_path_nondeterministic :
    get_chapter_path [toCL "audio"] (toCL "aaaa") (toCL "u1") (toCL ".") (toCL "ch")
      ≠ get_chapter_path [toCL "audio"] (toCL "bbbb") (toCL "u1") (toCL ".") (toCL "ch") := by
  decide

theorem sanitize_filename_of_core_ne {l : List Char} (u : List Char)
    (h : sanitize_core l ≠ []) :
    sanitize_filename u l =
      (if 100 < (sanitize_core l).length then (sanitize_core l).take 100
       else sanitize_core l) := by
  have hl : l ≠ [] := by rintro rfl; exact h rfl
  unfold sanitize_filename
  rw [if_neg hl, if_neg h]

/-- C5 (amended).  For every (book, chapter) pair whose sanitized forms
are non-empty — i.e. the random-UUID fallback of `_sanitize_filename` is
not triggered — `get_chapter_path` is deterministic: two calls with
identical inputs (and arbitrary, possibly different, UUID draws) yield
the identical path; and since `book_dir.mkdir` is called with
`parents=True, exist_ok=True`, the call succeeds even when the target
directory already exists in the filesystem `fs`. -/
theorem get_chapter_path_deterministic (root : List (List Char))
    (u1 u2 u3 u4 book chapter : List Char) (fs : List (List (List Char)))
    (hb : sanitize_core book ≠ []) (hc : sanitize_core chapter ≠ []) :
    get_chapter_path root u1 u2 book chapter = get_chapter_path root u3 u4 book chapter
    ∧ ∃ fsNew, get_chapter_path_fs fs root u1 u2 book chapter
        = Except.ok (get_chapter_path root u1 u2 book chapter, fsNew) := by
  have e1 : sanitize_filename u1 book = sanitize_filename u3 book := by
    rw [sanitize_filename_of_core_ne u1 hb, sanitize_filename_of_core_ne u3 hb]
  have e2 : sanitize_filename u2 chapter = sanitize_filename u4 chapter := by
    rw [sanitize_filename_of_core_ne u2 hc, sanitize_filename_of_core_ne u4 hc]
  constructor
  · unfold get_chapter_path chapter_file_name
    rw [e1, e2]
  · unfold get_chapter_path_fs mkdir_model
    by_cases hmem : (root ++ [sanitize_filename u1 book]) ∈ fs
    · rw [if_pos hmem]
      exact ⟨fs, rfl⟩
    · rw [if_neg hmem]
      exact ⟨_, rfl⟩

/-- Witness for C5 (amended) at `book = "b"`, `chapter = "c1"`, four
distinct UUID draws, and a filesystem in which the book directory
already exists. -/
theorem get_chapter_path_deterministic_witness :
    get_chapter_path [toCL "audio"] (toCL "u1") (toCL "u2") (toCL "b") (toCL "c1")
      = get_chapter_path [toCL "audio"] (toCL "u3") (toCL "u4") (toCL "b") (toCL "c1")
    ∧ ∃ fsNew,
        get_chapter_path_fs [[toCL "audio", toCL "b"]] [toCL "audio"]
            (toCL "u1") (toCL "u2") (toCL "b") (toCL "c1")
          = Except.ok
              (get_chapter_path [toCL "audio"] (toCL "u1") (toCL "u2") (toCL "b") (toCL "c1"),
                fsNew) :=
  get_chapter_path_deterministic [toCL "audio"] (toCL "u1") (toCL "u2") (toCL "u3") (toCL "u4")
    (toCL "b") (toCL "c1") [[toCL "audio", toCL "b"]] (by decide) (by decide)

/-! ## C3: segment length bound of the text segmenter -/

theorem strip_ws_length_le (l : List Char) : (strip_ws l).length ≤ l.length := by
  unfold strip_ws
  rw [List.length_reverse]
  calc ((l.dropWhile is_py_space).reverse.dropWhile is_py_space).length
      ≤ (l.dropWhile is_py_space).reverse.length := (List.dropWhile_sublist _).length_le
    _ = (l.dropWhile is_py_space).length := List.length_reverse _
    _ ≤ l.length := (List.dropWhile_sublist _).length_le

theorem pack_go_invariant (L : ℕ) (S : List (List Char)) :
    ∀ (sents : List (List Char)), (∀ s ∈ sents, s ∈ S) →
    ∀ (current : List Char) (chunks : List (List Char)),
      (current = [] ∨ current ∈ S ∨ current.length ≤ L + 1) →
      (∀ c ∈ chunks, c.length ≤ L + 1 ∨ ∃ s ∈ S, c = strip_ws s) →
      ∀ c ∈ pack_go L current chunks sents,
        c.length ≤ L + 1 ∨ ∃ s ∈ S, c = strip_ws s := by
  intro sents
  induction sents with
  | nil =>
    intro _ current chunks hcur hchunks c hc
    simp only [pack_go] at hc
    split at hc
    · exact hchunks c hc
    · rename_i hguard
      rcases List.mem_append.mp hc with h | h
      · exact hchunks c h
      · have hc2 : c = strip_ws current := by simpa using h
        subst hc2
        rcases hcur with rfl | hS | hlen
        · exact absurd rfl hguard
        · exact Or.inr ⟨current, hS, rfl⟩
        · exact Or.inl (le_trans (strip_ws_length_le current) hlen)
  | cons s rest ih =>
    intro hsub current chunks hcur hchunks c hc
    have hsS : s ∈ S := hsub s (List.mem_cons_self _ _)
    have hrest : ∀ x ∈ rest, x ∈ S := fun x hx => hsub x (List.mem_cons_of_mem _ hx)
    simp only [pack_go] at hc
    split at hc
    · rename_i hcond
      refine ih hrest s (chunks ++ [strip_ws current]) (Or.inr (Or.inl hsS)) ?_ c hc
      intro d hd
      rcases List.mem_append.mp hd with h | h
      · exact hchunks d h
      · have hd2 : d = strip_ws current := by simpa using h
        subst hd2
        rcases hcur with rfl | hS | hlen
        · exact absurd rfl hcond.2
        · exact Or.inr ⟨current, hS, rfl⟩
        · exact Or.inl (le_trans (strip_ws_length_le current) hlen)
    · rename_i hcond
      refine ih hrest _ chunks ?_ hchunks c hc
      by_cases hemp : current = []
      · rw [if_pos hemp]
        exact Or.inr (Or.inl hsS)
      · rw [if_neg hemp]
        right; right
        have hle : current.length + s.length ≤ L := by
          by_contra hlt
          push_neg at hlt
          exact hcond ⟨hlt, hemp⟩
        simp only [List.length_append, List.length_cons]
        omega

theorem slice_go_length_le :
    ∀ (fuel L : ℕ) (l : List Char), ∀ c ∈ slice_go fuel L l, c.length ≤ L := by
  intro fuel
  induction fuel with
  | zero =>
    intro L l c hc
    cases l <;> simp [slice_go] at hc
  | succ n ih =>
    intro L l c hc
    cases l with
    | nil => simp [slice_go] at hc
    | cons x xs =>
      simp only [slice_go] at hc
      rcases List.mem_cons.mp hc with rfl | h
      · rw [List.length_take]
        exact min_le_left _ _
      · exact ih L _ c h

/-- C3 (amended).  Every segment produced by `_split_text` has length at
most `L + 1` — the greedy packing check `len(current) + len(sentence) > L`
does not count the single space inserted when sentences are joined, so a
packed segment can exceed `L` by exactly one character — except a segment
that consists of a single (whitespace-stripped) sentence of the
sentence-split, which can be arbitrarily long. -/
theorem split_text_segment_bound (L : ℕ) (text : List Char) :
    ∀ c ∈ split_text L text,
      c.length ≤ L + 1 ∨ ∃ s ∈ sent_split text, c = strip_ws s ∧ L + 1 < c.length := by
  intro c hc
  unfold split_text at hc
  split at hc
  · exact Or.inl (le_trans (slice_go_length_le _ _ _ c hc) (Nat.le_succ L))
  · have h := pack_go_invariant L (sent_split text) (sent_split text) (fun s hs => hs) [] []
      (Or.inl rfl) (by intro d hd; simp at hd) c hc
    rcases h with h | ⟨s, hs, heq⟩
    · exact Or.inl h
    · by_cases hlen : c.length ≤ L + 1
      · exact Or.inl hlen
      · exact Or.inr ⟨s, hs, heq, by omega⟩

/-- Witness for C3 (amended) at the one-sentence input "hi." with the
code's configured bound `max_text_length = 500`. -/
theorem split_text_segment_bound_witness :
    (toCL "hi.") ∈ split_text 500 (toCL "hi.")
    ∧ ((toCL "hi.").length ≤ 500 + 1
        ∨ ∃ s ∈ sent_split (toCL "hi."),
            toCL "hi." = strip_ws s ∧ 500 + 1 < (toCL "hi.").length) :=
  ⟨by decide, split_text_segment_bound 500 (toCL "hi.") (toCL "hi.") (by decide)⟩

set_option maxRecDepth 20000 in
/-- Counterexample for C3 as stated.  With the code's bound `L = 500`,
the input consisting of a 250-character sentence, a space, and a second
250-character sentence is packed into a single 501-character segment,
which exceeds `L` although it is not a single sentence (every sentence of
the split is 250 ≤ 500 characters long). -/
theorem split_text_exceeds_bound :
    cex_text ∈ split_text 500 cex_text
    ∧ 500 < cex_text.length
    ∧ ∀ s ∈ sent_split cex_text, (strip_ws s).length ≤ 500 := by
  decide

/-! ## C4: audio normalization -/

theorem foldr_max_le_of_mem {l : List ℚ} {x : ℚ} (hx : x ∈ l) : x ≤ l.foldr max 0 := by
  induction l with
  | nil => simp at hx
  | cons a t ih =>
    simp only [List.foldr_cons]
    rcases List.mem_cons.mp hx with rfl | h
    · exact le_max_left _ _
    · exact le_trans (ih h) (le_max_right _ _)

theorem np_max_abs_ge {l : List ℚ} {x : ℚ} (hx : x ∈ l) : |x| ≤ np_max_abs l := by
  unfold np_max_abs
  exact foldr_max_le_of_mem (List.mem_map_of_mem _ hx)

theorem foldr_max_mul_nonneg (c : ℚ) (hc : 0 ≤ c) :
    ∀ l : List ℚ, ((l.map fun x => x * c).foldr max 0) = (l.foldr max 0) * c := by
  intro l
  induction l with
  | nil => simp
  | cons a t ih =>
    simp only [List.map_cons, List.foldr_cons, ih]
    rw [max_mul_of_nonneg _ _ hc]

theorem np_max_abs_map_mul (c : ℚ) (hc : 0 ≤ c) (l : List ℚ) :
    np_max_abs (l.map fun x => x * c) = np_max_abs l * c := by
  unfold np_max_abs
  rw [List.map_map]
  have h1 : ((fun x : ℚ => |x|) ∘ fun x => x * c) = fun x : ℚ => |x| * c := by
    funext x
    simp [Function.comp, abs_mul, abs_of_nonneg hc]
  rw [h1]
  have h2 := foldr_max_mul_nonneg c hc (l.map fun x => |x|)
  rw [List.map_map] at h2
  have h3 : ((fun x : ℚ => x * c) ∘ fun x : ℚ => |x|) = fun x : ℚ => |x| * c := by
    funext x
    simp [Function.comp]
  rw [h3] at h2
  exact h2

theorem foldr_max_eq_zero {m : List ℚ} (h : ∀ x ∈ m, x = (0 : ℚ)) : m.foldr max 0 = 0 := by
  induction m with
  | nil => rfl
  | cons a t ih =>
    simp only [List.foldr_cons]
    rw [h a (List.mem_cons_self _ _), ih (fun x hx => h x (List.mem_cons_of_mem _ hx))]
    simp

/-- C4 (amended).  In exact arithmetic, `_normalize_audio` brings the
maximum absolute sample to exactly the 0.9 ceiling for every waveform
having at least two distinct sample values (equivalently: non-silent
after DC-offset removal); for every all-zero waveform it is the identity,
and the `max_val > 0` guard means no division by zero ever occurs.  A
nonzero constant waveform — non-silent, but with no two distinct
samples — is flattened to all-zero by the mean subtraction and therefore
does not reach the ceiling (see the counterexample below). -/
theorem normalize_audio_spec (l : List ℚ) :
    ((∃ a ∈ l, ∃ b ∈ l, a ≠ b) → np_max_abs (normalize_audio l) = 9 / 10)
    ∧ ((∀ a ∈ l, a = 0) → normalize_audio l = l) := by
  constructor
  · rintro ⟨a, ha, b, hb, hab⟩
    have hx : ∃ x ∈ l.map fun y => y - np_mean l, x ≠ 0 := by
      by_cases h : a - np_mean l = 0
      · refine ⟨b - np_mean l, List.mem_map_of_mem _ hb, ?_⟩
        intro h2
        exact hab (by rw [sub_eq_zero.mp h, sub_eq_zero.mp h2])
      · exact ⟨a - np_mean l, List.mem_map_of_mem _ ha, h⟩
    obtain ⟨x, hxmem, hxne⟩ := hx
    have hm : 0 < np_max_abs (l.map fun y => y - np_mean l) :=
      lt_of_lt_of_le (abs_pos.mpr hxne) (np_max_abs_ge hxmem)
    unfold normalize_audio
    rw [if_pos hm]
    rw [np_max_abs_map_mul _ (div_nonneg (by norm_num) (le_of_lt hm)) _]
    rw [mul_comm, div_mul_cancel₀ _ (ne_of_gt hm)]
  · intro h0
    have hsum : l.sum = 0 := List.sum_eq_zero h0
    have hmean : np_mean l = 0 := by
      unfold np_mean
      rw [hsum]
      simp
    have hcent : (l.map fun x => x - np_mean l) = l := by
      rw [hmean]
      simp
    have hmax : np_max_abs l = 0 := by
      unfold np_max_abs
      refine foldr_max_eq_zero ?_
      intro x hx
      rcases List.mem_map.mp hx with ⟨y, hy, rfl⟩
      rw [h0 y hy]
      simp
    unfold normalize_audio
    rw [hcent, hmax, if_neg (lt_irrefl 0)]

/-- Witness for C4 at the two-sample waveform `[1, 2]`. -/
theorem normalize_audio_spec_witness :
    np_max_abs (normalize_audio [(1 : ℚ), 2]) = 9 / 10 :=
  (normalize_audio_spec [1, 2]).1 ⟨1, by norm_num, 2, by norm_num, by norm_num⟩

/-- Counterexample for C4 as stated.  The waveform `[1/2, 1/2]` is
non-silent (its maximum absolute sample is 1/2 > 0), yet after the
DC-offset removal `_normalize_audio` returns all-zero output whose
maximum absolute sample is 0, not within any small epsilon of 0.9. -/
theorem normalize_audio_dc_counterexample :
    normalize_audio [(1 : ℚ) / 2, 1 / 2] = [0, 0]
    ∧ np_max_abs (normalize_audio [(1 : ℚ) / 2, 1 / 2]) = 0
    ∧ ((1 : ℚ) / 2 ≠ 0) := by
  have hmean : np_mean [(1 : ℚ) / 2, 1 / 2] = 1 / 2 := by
    unfold np_mean
    norm_num
  have hcent : ([(1 : ℚ) / 2, 1 / 2].map fun x => x - np_mean [(1 : ℚ) / 2, 1 / 2]) = [0, 0] := by
    rw [hmean]
    norm_num
  have hmax : np_max_abs ([(0 : ℚ), 0]) = 0 := by
    unfold np_max_abs
    norm_num
  have hres : normalize_audio [(1 : ℚ) / 2, 1 / 2] = [0, 0] := by
    unfold normalize_audio
    rw [hcent, hmax, if_neg (lt_irrefl 0)]
  refine ⟨hres, ?_, by norm_num⟩
  rw [hres, hmax]

/-! ## C7: per-chunk failure recovery -/

/-- C7.  For every text chunk whose synthesis raises, `_generate_chunk`
substitutes the fixed 2-second silence buffer
`np.zeros(int(2 * self.sample_rate))`; and the per-chunk loop of
`generate_speech` still produces one output per chunk (no chunk aborts
the job), as witnessed by `chunk_outputs` having exactly one entry per
input chunk. -/
theorem generate_chunk_failure_silence (sr : ℕ) (synth : List Char → Except Unit (List ℚ))
    (c : List Char) (hfail : synth c = Except.error ()) (chunks : List (List Char)) :
    generate_chunk sr synth c = List.replicate (2 * sr) 0
    ∧ (chunk_outputs sr synth chunks).length = chunks.length := by
  constructor
  · unfold generate_chunk
    rw [hfail]
  · unfold chunk_outputs
    exact List.length_map _ _

/-- Witness for C7: an always-failing backend at sample rate 16000 on a
two-chunk job. -/
theorem generate_chunk_failure_silence_witness :
    generate_chunk 16000 synth_fail (toCL "hello") = List.replicate (2 * 16000) 0
    ∧ (chunk_outputs 16000 synth_fail [toCL "hello", toCL "world"]).length
        = [toCL "hello", toCL "world"].length :=
  generate_chunk_failure_silence 16000 synth_fail (toCL "hello") rfl
    [toCL "hello", toCL "world"]

/-! ## C8: transcoding fallback -/

/-- C8.  Whenever the ffmpeg invocation does not complete with return
code 0 — it returned non-zero, timed out after the 60-second bound, or
could not be started at all — `process_audio` falls back to the plain
byte-for-byte copy and still returns the destination path; it raises
exactly when that fallback copy itself fails. -/
theorem process_audio_fallback (env : TranscodeEnv) (input_path output_path : List Char)
    (h : env.ffmpeg ≠ FfmpegOutcome.completed 0) :
    process_audio env input_path output_path
      = (if env.copy_ok then Except.ok output_path else Except.error ())
    ∧ ffmpeg_timeout_seconds = 60 := by
  refine ⟨?_, rfl⟩
  unfold process_audio simple_copy
  cases henv : env.ffmpeg with
  | completed rc =>
    have hrc : ¬(rc = 0) := by
      rintro rfl
      exact h henv
    show (if rc = 0 then Except.ok output_path
          else if env.copy_ok = true then Except.ok output_path else Except.error ())
        = if env.copy_ok = true then Except.ok output_path else Except.error ()
    rw [if_neg hrc]
  | timedOut => rfl
  | notAvailable => rfl

/-- Witness for C8: a timed-out ffmpeg with a succeeding fallback copy. -/
theorem process_audio_fallback_witness :
    process_audio ⟨FfmpegOutcome.timedOut, true⟩ (toCL "/tmp/raw.wav")
        (toCL "/audio/b1/chapter-1.mp3")
      = (if (⟨FfmpegOutcome.timedOut, true⟩ : TranscodeEnv).copy_ok
          then Except.ok (toCL "/audio/b1/chapter-1.mp3") else Except.error ())
    ∧ ffmpeg_timeout_seconds = 60 :=
  process_audio_fallback ⟨FfmpegOutcome.timedOut, true⟩ (toCL "/tmp/raw.wav")
    (toCL "/audio/b1/chapter-1.mp3") (by decide)

/-! ## C6: health/readiness query -/

/-- C6 (the code bug).  The `/health` handler reads
`tts_engine.is_loaded`, but the deployed engine `SimpleTTSEngine` only
sets `self.initialized` and has no `is_loaded` attribute, so the
attribute lookup raises `AttributeError`, the handler's `except` turns it
into `HTTPException(500, "Health check failed")`, and the health query
therefore never succeeds and never reports readiness — regardless of
whether the engine finished initialization and regardless of the system
metrics. -/
theorem health_check_simple_engine_fails (initialized : Bool) (ap : List Char)
    (disk mem : ℚ) (gpu : Bool) :
    health_check (simple_tts_engine_attrs initialized) ap disk mem gpu = Except.error 500 := rfl

/-! ## C2: the request's response carries the synthesis result -/

/-- Counterexample for C2 as stated.  With an engine whose `is_loaded`
attribute is present and true (the configuration `generate_tts` was
written for) and a fully succeeding pipeline, the response to the
original `/tts` request itself carries the synthesis result: success
flag, artifact path, duration, file size and processing time — not a
bare acceptance acknowledgment. -/
theorem generate_tts_returns_result_inline :
    generate_tts env_ok req_ex
      = Except.ok ⟨true, toCL "TTS generation completed successfully",
          some (toCL "b1/chapter-1.mp3"), some 5, some 1000, some 2⟩ := rfl

/-- C2 (amended).  `generate_tts` performs the whole pipeline
synchronously inside the request: whenever the engine's `is_loaded`
lookup yields `true`, synthesis does not raise and transcoding succeeds,
the handler's response to the original request is
`success=True` together with the artifact's relative path, the probed
duration, the file size and the processing time — i.e. completion and
duration are observable directly through the original request's
response, and no queue or separate acknowledgment exists. -/
theorem generate_tts_success_response (env : TTSPipelineEnv) (req : TTSRequestModel)
    (hready : getattr_bool env.engine_attrs (toCL "is_loaded") = some true)
    (hsynth : env.synth_raises = false) (p : List Char) (hp : env.transcode = Except.ok p) :
    generate_tts env req
      = Except.ok ⟨true, toCL "TTS generation completed successfully",
          some (relative_audio_path req), some env.probed_duration, some env.stat_size,
          some env.elapsed⟩ := by
  unfold generate_tts
  rw [hready, hsynth, hp]
  rfl

/-- Witness for C2 (amended) at the concrete environment `env_ok` and
request `req_ex`. -/
theorem generate_tts_success_response_witness :
    generate_tts env_ok req_ex
      = Except.ok ⟨true, toCL "TTS generation completed successfully",
          some (relative_audio_path req_ex), some env_ok.probed_duration,
          some env_ok.stat_size, some env_ok.elapsed⟩ :=
  generate_tts_success_response env_ok req_ex rfl rfl (toCL "/audio/b1/chapter-1.mp3") rfl

/-! ## C10: silent truncation at 500 characters -/

/-- C10.  For every request text whose whitespace-normalized form is
longer than 500 characters, `SimpleTTSEngine._clean_text` — the text
actually handed to the espeak command in `generate_speech` — keeps only
the first 500 characters and appends `"..."` (503 characters total),
silently discarding the remainder; while the `TTSRequest` surface
accepts any such text up to 50,000 characters. -/
theorem clean_text_truncates (text : List Char)
    (h : 500 < (normalize_ws text).length) :
    clean_text text = (normalize_ws text).take 500 ++ toCL "..."
    ∧ (clean_text text).length = 503
    ∧ (text.length ≤ 50000 → tts_request_text_ok text) := by
  have h1 : clean_text text = (normalize_ws text).take 500 ++ toCL "..." := by
    unfold clean_text
    rw [if_pos h]
  refine ⟨h1, ?_, ?_⟩
  · rw [h1, List.length_append, List.length_take]
    have h3 : (toCL "...").length = 3 := rfl
    rw [h3]
    omega
  · intro hle
    refine ⟨?_, hle⟩
    by_contra h0
    push_neg at h0
    have htext : text = [] := List.eq_nil_of_length_eq_zero (by omega)
    subst htext
    have hnil : normalize_ws [] = [] := rfl
    rw [hnil] at h
    exact absurd h (by omega)

set_option maxRecDepth 20000 in
/-- Witness for C10 at a 501-character request text (well within the
50,000-character request bound). -/
theorem clean_text_truncates_witness :
    clean_text (List.replicate 501 'a')
        = (normalize_ws (List.replicate 501 'a')).take 500 ++ toCL "..."
    ∧ (clean_text (List.replicate 501 'a')).length = 503
    ∧ ((List.replicate 501 'a').length ≤ 50000
        → tts_request_text_ok (List.replicate 501 'a')) :=
  clean_text_truncates (List.replicate 501 'a') (by decide)
